import Mathlib

/-!
A shallow embedding of the iptv-proxy core: the header merge and the
outbound-header construction of the stream relay, the adaptive-playlist
target resolution of `m3u8ReverseProxy`, the xtream action dispatcher
(`Action`) with its series aggregation fallback and default login
synthesis, and the body-restoring `appAuthenticate` handler.
-/

namespace IptvProxy

/-- HTTP headers, one value list per (canonical) header name; absent names
map to `[]`. Mirrors Go's `http.Header` for the per-name operations the
relay uses (Get, Set, Del, Values, Add). -/
def Header : Type := String → List String

def emptyHeader : Header := fun _ => []

/-- Go `http.Header.Get`: first value for the name, `""` when absent. -/
def hdrGet (h : Header) (k : String) : String :=
  match h k with
  | [] => ""
  | v :: _ => v

/-- Go `http.Header.Set`: replace all values for the name by the one value. -/
def hdrSet (h : Header) (k v : String) : Header :=
  fun q => if q = k then [v] else h q

/-- Go `http.Header.Del`: remove all values for the name. -/
def hdrDel (h : Header) (k : String) : Header :=
  fun q => if q = k then [] else h q

/-- Port of `values.contains` (server file, lines 135-145). -/
def containsVal : List String → String → Bool
  | [], _ => false
  | v :: vs, s => if v = s then true else containsVal vs s

/-- Inner loop of `mergeHttpHeader` (server file, lines 148-155) for one
header name: add each source value unless it is already among the
destination's values for that name. -/
def mergeValues (dstv : List String) : List String → List String
  | [] => dstv
  | v :: vs => mergeValues (if containsVal dstv v then dstv else dstv ++ [v]) vs

/-- Port of `mergeHttpHeader` (server file, lines 147-156). Entries of
distinct names never interact (a Go map has one entry per name), so the
iteration over the source map is embedded name-wise. -/
def mergeHttpHeader (dst src : Header) : Header :=
  fun k => mergeValues (dst k) (src k)

/-- Outbound header pipeline of `stream` (server file, lines 65-81): the
freshly created GET request has no headers; it receives the inbound
User-Agent when the outbound one is unset, then `Del("Authorization")` and
`Del("Proxy-Authorization")` run on it, and finally
`mergeHttpHeader(req.Header, ctx.Request.Header)` copies the inbound
headers in. -/
def buildOutboundHeaders (inbound : Header) : Header :=
  let h0 := emptyHeader
  let h1 := if hdrGet inbound "User-Agent" ≠ "" ∧ hdrGet h0 "User-Agent" = "" then
      hdrSet h0 "User-Agent" (hdrGet inbound "User-Agent")
    else h0
  let h2 := hdrDel h1 "Authorization"
  let h3 := hdrDel h2 "Proxy-Authorization"
  mergeHttpHeader h3 inbound

/-- Go `path.Base`: strip trailing slashes, then keep everything after the
last slash; `""` gives `"."` and an all-slash path gives `"/"`. -/
def pathBase (p : List Char) : List Char :=
  if p = [] then ['.']
  else
    let q := (p.reverse.dropWhile (fun c => c = '/')).reverse
    let r := (q.reverse.takeWhile (fun c => c ≠ '/')).reverse
    if r = [] then ['/'] else r

/-- Fuel-indexed core of Go `strings.ReplaceAll`: replace the
non-overlapping occurrences of `pat`, scanning left to right. The fuel only
provides structural termination; `replaceAll` passes the string length,
which the scan never exhausts since every step consumes at least one
character. Go's special treatment of an empty pattern is not modelled: the
relay's pattern is `path.Base(uri)`, which is never empty. -/
def replaceAllAux (pat rep : List Char) : Nat → List Char → List Char
  | _, [] => []
  | 0, s => s
  | fuel + 1, c :: cs =>
    if pat.isPrefixOf (c :: cs) ∧ pat ≠ [] then
      rep ++ replaceAllAux pat rep fuel ((c :: cs).drop pat.length)
    else
      c :: replaceAllAux pat rep fuel cs

def replaceAll (s pat rep : List Char) : List Char :=
  replaceAllAux pat rep s.length s

/-- Target resolution of `m3u8ReverseProxy` (server file, line 56):
`strings.ReplaceAll(c.track.URI, path.Base(c.track.URI), id)`. -/
def m3u8Target (uri id : List Char) : List Char :=
  replaceAll uri (pathBase uri) id

/-- Decidable substring test on character lists, used to state that an
error message names a parameter. -/
def substrB (pat s : List Char) : Bool :=
  (List.range (s.length + 1)).any (fun i => pat.isPrefixOf (s.drop i))

/-- Proxy-facing configuration (`config.ProxyConfig` fields read by
`Action`). -/
structure ProxyConfig where
  user : String
  password : String
  hostname : String
  advertisedPort : Nat
  https : Bool
deriving DecidableEq

/-- Backend-reported account metadata (`xtream.UserInfo` fields copied by
`login`). Scalar backend field types carry no behaviour here, so they are
embedded as strings or naturals. -/
structure UserInfo where
  username : String
  password : String
  message : String
  auth : Nat
  status : String
  expDate : String
  isTrial : String
  activeConnections : String
  createdAt : String
  maxConnections : String
  allowedOutputFormats : List String
deriving DecidableEq

/-- Backend-reported server metadata (`xtream.ServerInfo` fields written by
`login`). -/
structure ServerInfo where
  url : String
  port : Nat
  httpsPort : Nat
  protocol : String
  rtmpPort : Nat
  timezone : String
  timestampNow : Nat
  timeNow : String
deriving DecidableEq

/-- The `login` response shape (xtream-proxy.go lines 63-66). -/
structure Login where
  userInfo : UserInfo
  serverInfo : ServerInfo
deriving DecidableEq

/-- A series record (`xtream.SeriesInfo` fields the dispatcher assembles). -/
structure SeriesInfo where
  name : String
  cover : String
  seriesId : Nat
  categoryId : Option Nat
  plot : String
  cast : String
  director : String
  genre : String
  releaseDate : String
  rating : Nat
deriving DecidableEq

/-- A series category (`xtream.Category`); `fmt.Sprint(category.ID)` is
embedded as `toString id`. -/
structure Category where
  id : Nat
  name : String
deriving DecidableEq

/-- One record of the raw `get_series` response (a decoded JSON object):
its `category_id` field (absent entries are skipped by the filter path) and
the `SeriesInfo` assembled from it. The no-filter path (lines 174-241)
assembles the full record; the filter path (lines 309-327) assembles only
name, cover and the series id, embedded by `slimInfo`. -/
structure RawSerie where
  categoryId : Option String
  info : SeriesInfo
deriving DecidableEq

/-- The filter path's conversion (lines 309-327) sets only `Name`, `Cover`
and `SeriesID`; the remaining fields keep their zero values. -/
def slimInfo (s : SeriesInfo) : SeriesInfo :=
  { name := s.name, cover := s.cover, seriesId := s.seriesId,
    categoryId := none, plot := "", cast := "", director := "", genre := "",
    releaseDate := "", rating := 0 }

/-- The backend session: the account/server metadata cached at
authentication time plus one oracle per upstream operation the dispatcher
can invoke. Oracles for operations whose payloads no claim inspects return
an opaque string payload. `rawAllSeries` stands for the raw
`player_api.php?action=get_series` HTTP call together with its status check
and tolerant JSON decoding (lines 150-171 and 292-303): it errs whenever
the call, the status or the decode fails. -/
structure Backend where
  userInfo : UserInfo
  serverInfo : ServerInfo
  liveCategories : Except String String
  liveStreams : String → Except String String
  vodCategories : Except String String
  vodStreams : String → Except String String
  vodInfo : String → Except String String
  seriesCategories : Except String (List Category)
  getSeries : String → Except String (List SeriesInfo)
  rawAllSeries : Except String (List RawSerie)
  seriesInfo : String → Except String String
  shortEPG : String → Int → Except String String
  epgTable : String → Except String String

/-- One backend call, recorded in the order the dispatcher issues them. -/
inductive BackendCall where
  | liveCategories
  | liveStreams (cat : String)
  | vodCategories
  | vodStreams (cat : String)
  | vodInfo (id : String)
  | seriesCategories
  | seriesPerCategory (cat : String)
  | seriesDirect (cat : String)
  | rawAllSeries
  | seriesInfo (id : String)
  | shortEPG (id : String) (limit : Int)
  | epgTable (id : String)
deriving DecidableEq

/-- A dispatcher response body. -/
inductive Resp where
  | raw (payload : String)
  | categories (cs : List Category)
  | series (s : List SeriesInfo)
  | login (l : Login)
deriving DecidableEq

/-- The triple `(respBody, httpcode, err)` returned by `Action`, extended
with the trace of backend calls the dispatch issued. -/
structure ActionResult where
  respBody : Option Resp
  httpcode : Nat
  err : Option String
  calls : List BackendCall
deriving DecidableEq

/-- Go `%q` on a plain parameter name. -/
def quoteParam (p : String) : String := "\"" ++ p ++ "\""

/-- Port of `validateParams` (xtream-proxy.go lines 380-389): the first
missing parameter yields `(400, missing "name")`. -/
def validateParams (q : String → List String) : List String → Nat × Option String
  | [] => (0, none)
  | p :: ps =>
    if (q p).length < 1 then (400, some ("missing " ++ quoteParam p))
    else validateParams q ps

/-- Go `q["k"][0]` guarded by `len(q["k"]) > 0`, else the empty string. -/
def firstParam (q : String → List String) (k : String) : String :=
  match q k with
  | [] => ""
  | v :: _ => v

/-- The ten enumerated action names (xtream-proxy.go lines 35-46). -/
def actionNames : List String :=
  ["get_live_categories", "get_live_streams", "get_vod_categories",
   "get_vod_streams", "get_vod_info", "get_series_categories", "get_series",
   "get_series_info", "get_short_epg", "get_simple_data_table"]

/-- Port of `login` (xtream-proxy.go lines 69-97): proxy credentials and
proxy-facing url/port/protocol replace the backend's server values; the
backend-reported account fields and server timezone/time are copied
through. -/
def loginPayload (c : Backend) (proxyUser proxyPassword proxyURL : String)
    (proxyPort : Nat) (protocol : String) : Login :=
  { userInfo :=
      { username := proxyUser
        password := proxyPassword
        message := c.userInfo.message
        auth := c.userInfo.auth
        status := c.userInfo.status
        expDate := c.userInfo.expDate
        isTrial := c.userInfo.isTrial
        activeConnections := c.userInfo.activeConnections
        createdAt := c.userInfo.createdAt
        maxConnections := c.userInfo.maxConnections
        allowedOutputFormats := c.userInfo.allowedOutputFormats }
    serverInfo :=
      { url := proxyURL
        port := proxyPort
        httpsPort := proxyPort
        protocol := protocol
        rtmpPort := proxyPort
        timezone := c.serverInfo.timezone
        timestampNow := c.serverInfo.timestampNow
        timeNow := c.serverInfo.timeNow } }

/-- The `login` method returns `(req, nil)`: it is total and its error
component is always `none`. -/
def loginBuild (c : Backend) (proxyUser proxyPassword proxyURL : String)
    (proxyPort : Nat) (protocol : String) : Login × Option String :=
  (loginPayload c proxyUser proxyPassword proxyURL proxyPort protocol, none)

/-- State threaded through the category-by-category fallback loop
(xtream-proxy.go lines 261-280): `allSeries`, `successCount`, `errorCount`
and the calls issued so far. -/
structure AggState where
  allSeries : List SeriesInfo
  successCount : Nat
  errorCount : Nat
  calls : List BackendCall
deriving DecidableEq

/-- One iteration of the fallback loop (lines 265-280): fetch the
category's series; a failure only increments `errorCount`; a success with
records appends them and increments `successCount`; a success with no
records changes no counter. -/
def aggStep (be : Backend) (st : AggState) (cat : Category) : AggState :=
  match be.getSeries (toString cat.id) with
  | .error _ =>
    { st with errorCount := st.errorCount + 1,
              calls := st.calls ++ [.seriesPerCategory (toString cat.id)] }
  | .ok s =>
    if 0 < s.length then
      { st with allSeries := st.allSeries ++ s,
                successCount := st.successCount + 1,
                calls := st.calls ++ [.seriesPerCategory (toString cat.id)] }
    else
      { st with calls := st.calls ++ [.seriesPerCategory (toString cat.id)] }

/-- The fallback loop over the category list. -/
def aggregateFrom (be : Backend) (st : AggState) : List Category → AggState
  | [] => st
  | c :: cs => aggregateFrom be (aggStep be st c) cs

def aggInit : AggState := ⟨[], 0, 0, []⟩

def protocolOf (cfg : ProxyConfig) : String := if cfg.https then "https" else "http"

/-- Port of `Action` (xtream-proxy.go lines 100-378). Notes kept from the
source: in the filtered `get_series` branch the named return `err` receives
the direct fetch's error (line 286) and the later `err = nil` (line 334)
assigns a variable shadowed inside the fallback block, so a successful
filtered fallback still returns that error; the `get_short_epg` branch
turns an unparsable `limit` into code 500; the default branch synthesizes
the login payload and calls no backend operation. -/
def Action (cfg : ProxyConfig) (be : Backend) (action : String)
    (q : String → List String) : ActionResult :=
  if action = "get_live_categories" then
    match be.liveCategories with
    | .ok b => ⟨some (.raw b), 0, none, [.liveCategories]⟩
    | .error e => ⟨none, 0, some e, [.liveCategories]⟩
  else if action = "get_live_streams" then
    match be.liveStreams (firstParam q "category_id") with
    | .ok b => ⟨some (.raw b), 0, none, [.liveStreams (firstParam q "category_id")]⟩
    | .error e => ⟨none, 0, some e, [.liveStreams (firstParam q "category_id")]⟩
  else if action = "get_vod_categories" then
    match be.vodCategories with
    | .ok b => ⟨some (.raw b), 0, none, [.vodCategories]⟩
    | .error e => ⟨none, 0, some e, [.vodCategories]⟩
  else if action = "get_vod_streams" then
    match be.vodStreams (firstParam q "category_id") with
    | .ok b => ⟨some (.raw b), 0, none, [.vodStreams (firstParam q "category_id")]⟩
    | .error e => ⟨none, 0, some e, [.vodStreams (firstParam q "category_id")]⟩
  else if action = "get_vod_info" then
    match validateParams q ["vod_id"] with
    | (code, some e) => ⟨none, code, some e, []⟩
    | (_, none) =>
      match be.vodInfo (firstParam q "vod_id") with
      | .ok b => ⟨some (.raw b), 0, none, [.vodInfo (firstParam q "vod_id")]⟩
      | .error e => ⟨none, 0, some e, [.vodInfo (firstParam q "vod_id")]⟩
  else if action = "get_series_categories" then
    match be.seriesCategories with
    | .ok cs => ⟨some (.categories cs), 0, none, [.seriesCategories]⟩
    | .error e => ⟨none, 0, some e, [.seriesCategories]⟩
  else if action = "get_series" then
    let categoryID := firstParam q "category_id"
    if categoryID = "" then
      match be.rawAllSeries with
      | .ok raws => ⟨some (.series (raws.map (fun r => r.info))), 0, none, [.rawAllSeries]⟩
      | .error _ =>
        match be.seriesCategories with
        | .error e => ⟨none, 500, some e, [.rawAllSeries, .seriesCategories]⟩
        | .ok cats =>
          let st := aggregateFrom be aggInit cats
          ⟨some (.series st.allSeries), 0, none, [.rawAllSeries, .seriesCategories] ++ st.calls⟩
    else
      match be.getSeries categoryID with
      | .ok s => ⟨some (.series s), 0, none, [.seriesDirect categoryID]⟩
      | .error e =>
        match be.rawAllSeries with
        | .ok raws =>
          ⟨some (.series ((raws.filter (fun r => r.categoryId == some categoryID)).map
              (fun r => slimInfo r.info))),
           0, some e, [.seriesDirect categoryID, .rawAllSeries]⟩
        | .error _ => ⟨none, 0, some e, [.seriesDirect categoryID, .rawAllSeries]⟩
  else if action = "get_series_info" then
    match validateParams q ["series_id"] with
    | (code, some e) => ⟨none, code, some e, []⟩
    | (_, none) =>
      match be.seriesInfo (firstParam q "series_id") with
      | .ok b => ⟨some (.raw b), 0, none, [.seriesInfo (firstParam q "series_id")]⟩
      | .error e => ⟨none, 0, some e, [.seriesInfo (firstParam q "series_id")]⟩
  else if action = "get_short_epg" then
    match validateParams q ["stream_id"] with
    | (code, some e) => ⟨none, code, some e, []⟩
    | (_, none) =>
      if 0 < (q "limit").length ∧ firstParam q "limit" ≠ "" then
        match (firstParam q "limit").toInt? with
        | none => ⟨none, 500, some ("parsing " ++ firstParam q "limit"), []⟩
        | some l =>
          match be.shortEPG (firstParam q "stream_id") l with
          | .ok b => ⟨some (.raw b), 0, none, [.shortEPG (firstParam q "stream_id") l]⟩
          | .error e => ⟨none, 0, some e, [.shortEPG (firstParam q "stream_id") l]⟩
      else
        match be.shortEPG (firstParam q "stream_id") 0 with
        | .ok b => ⟨some (.raw b), 0, none, [.shortEPG (firstParam q "stream_id") 0]⟩
        | .error e => ⟨none, 0, some e, [.shortEPG (firstParam q "stream_id") 0]⟩
  else if action = "get_simple_data_table" then
    match validateParams q ["stream_id"] with
    | (code, some e) => ⟨none, code, some e, []⟩
    | (_, none) =>
      match be.epgTable (firstParam q "stream_id") with
      | .ok b => ⟨some (.raw b), 0, none, [.epgTable (firstParam q "stream_id")]⟩
      | .error e => ⟨none, 0, some e, [.epgTable (firstParam q "stream_id")]⟩
  else
    let proto := protocolOf cfg
    let lb := loginBuild be cfg.user cfg.password (proto ++ "://" ++ cfg.hostname)
        cfg.advertisedPort proto
    ⟨some (.login lb.1), 0, lb.2, []⟩

/-- Outcome of the `appAuthenticate` handler. -/
inductive AuthOutcome where
  | internalError
  | badRequest
  | unauthorized
  | passed
deriving DecidableEq

/-- An inbound request as `appAuthenticate` sees it: its body bytes. -/
structure HttpRequest where
  body : String
deriving DecidableEq

/-- Port of `appAuthenticate` (server file, lines 175-197). Reading the
body consumes it; `url.ParseQuery` is an external collaborator passed as
`parseQuery`. On a parse failure or missing username/password entry the
handler aborts with the body still consumed; once the credential
comparison runs — match or mismatch — the final statement restores the
body from the bytes read. -/
def appAuthenticate (parseQuery : String → Except String (String → List String))
    (cfgUser cfgPassword : String) (req : HttpRequest) : HttpRequest × AuthOutcome :=
  let contents := req.body
  let consumed : HttpRequest := { body := "" }
  match parseQuery contents with
  | .error _ => (consumed, .internalError)
  | .ok q =>
    match q "username", q "password" with
    | [], _ => (consumed, .badRequest)
    | _ :: _, [] => (consumed, .badRequest)
    | u :: _, p :: _ =>
      ({ body := contents },
       if cfgUser ≠ u ∨ cfgPassword ≠ p then .unauthorized else .passed)

/-- Instrumentation event for the fallback loop: a category fetch begins,
a category fetch returns, the shared accumulator is mutated. -/
inductive AggEvent where
  | start (cat : String)
  | finish (cat : String)
  | merge (cat : String)
deriving DecidableEq

/-- The events of one iteration of the fallback loop (lines 265-280): the
blocking `GetSeries` call begins and returns; when it succeeded with
records, the accumulator is mutated afterwards. -/
def catTrace (be : Backend) (cat : Category) : List AggEvent :=
  match be.getSeries (toString cat.id) with
  | .error _ => [.start (toString cat.id), .finish (toString cat.id)]
  | .ok s =>
    if 0 < s.length then
      [.start (toString cat.id), .finish (toString cat.id), .merge (toString cat.id)]
    else
      [.start (toString cat.id), .finish (toString cat.id)]

/-- The event trace of the whole fallback loop, category by category in
loop order: the loop is sequential, so each fetch returns before the next
begins. -/
def aggTrace (be : Backend) : List Category → List AggEvent
  | [] => []
  | c :: cs => catTrace be c ++ aggTrace be cs

def evtDelta : AggEvent → Int
  | .start _ => 1
  | .finish _ => -1
  | .merge _ => 0

/-- Number of fetches in flight after a (prefix of a) trace: begun and not
yet returned. -/
def inFlight (es : List AggEvent) : Int := (es.map evtDelta).sum

lemma containsVal_iff (vs : List String) (s : String) :
    containsVal vs s = true ↔ s ∈ vs := by
  induction vs with
  | nil => simp [containsVal]
  | cons v vs ih =>
    by_cases h : v = s
    · simp [containsVal, h]
    · simp only [containsVal, if_neg h, ih, List.mem_cons]
      constructor
      · exact Or.inr
      · rintro (rfl | hm)
        · exact absurd rfl h
        · exact hm

lemma mergeValues_mem (srcv : List String) :
    ∀ dstv v, v ∈ mergeValues dstv srcv ↔ v ∈ dstv ∨ v ∈ srcv := by
  induction srcv with
  | nil => simp [mergeValues]
  | cons w ws ih =>
    intro dstv v
    simp only [mergeValues]
    rw [ih]
    by_cases hw : containsVal dstv w = true
    · have hwmem : w ∈ dstv := (containsVal_iff _ _).mp hw
      rw [if_pos hw]
      constructor
      · rintro (h | h)
        · exact Or.inl h
        · exact Or.inr (List.mem_cons_of_mem _ h)
      · rintro (h | h)
        · exact Or.inl h
        · rcases List.mem_cons.mp h with rfl | h
          · exact Or.inl hwmem
          · exact Or.inr h
    · rw [if_neg hw]
      simp [List.mem_append, List.mem_cons, or_assoc]

lemma mergeValues_noop (srcv : List String) :
    ∀ dstv, (∀ v ∈ srcv, v ∈ dstv) → mergeValues dstv srcv = dstv := by
  induction srcv with
  | nil => intro dstv _; rfl
  | cons w ws ih =>
    intro dstv h
    have hw : containsVal dstv w = true :=
      (containsVal_iff _ _).mpr (h w (List.mem_cons_self _ _))
    simp only [mergeValues, if_pos hw]
    exact ih dstv (fun v hv => h v (List.mem_cons_of_mem _ hv))

lemma mergeValues_pre (srcv : List String) :
    ∀ dstv, dstv <+: mergeValues dstv srcv := by
  induction srcv with
  | nil => intro dstv; exact List.prefix_refl _
  | cons w ws ih =>
    intro dstv
    simp only [mergeValues]
    by_cases hw : containsVal dstv w = true
    · rw [if_pos hw]; exact ih dstv
    · rw [if_neg hw]
      exact (List.prefix_append _ _).trans (ih (dstv ++ [w]))

/-- Claim C7: the header merge adds to the destination exactly those
source pairs whose value is not already present under the name — merging
an already-present value is a no-op on the whole header map, the merge is
idempotent, prior destination values are kept as an unchanged initial
segment, and the merged value set for a name is exactly the union of the
two sides' values for it. -/
theorem mergeHttpHeader_spec (dst src : Header) (k : String) :
    (∀ v, containsVal (dst k) v = true →
        mergeHttpHeader dst (hdrSet emptyHeader k v) = dst) ∧
    mergeHttpHeader (mergeHttpHeader dst src) src = mergeHttpHeader dst src ∧
    dst k <+: mergeHttpHeader dst src k ∧
    (∀ v, v ∈ mergeHttpHeader dst src k ↔ v ∈ dst k ∨ v ∈ src k) := by
  refine ⟨?_, ?_, ?_, ?_⟩
  · intro v hv
    funext q
    by_cases hk : q = k
    · subst hk
      simp [mergeHttpHeader, hdrSet, mergeValues, hv]
    · simp [mergeHttpHeader, hdrSet, emptyHeader, hk, mergeValues]
  · funext q
    exact mergeValues_noop (src q) _
      (fun v hv => (mergeValues_mem _ _ v).mpr (Or.inr hv))
  · exact mergeValues_pre _ _
  · intro v
    exact mergeValues_mem _ _ v

def wDst : Header := fun k => if k = "Accept" then ["a"] else []

def wSrc : Header := fun k => if k = "Accept" then ["a", "b"] else []

theorem mergeHttpHeader_spec_witness :
    mergeHttpHeader wDst (hdrSet emptyHeader "Accept" "a") = wDst ∧
    ("b" ∈ mergeHttpHeader wDst wSrc "Accept" ↔
      "b" ∈ wDst "Accept" ∨ "b" ∈ wSrc "Accept") :=
  ⟨(mergeHttpHeader_spec wDst wSrc "Accept").1 "a" (by decide),
   (mergeHttpHeader_spec wDst wSrc "Accept").2.2.2 "b"⟩

/-- A concrete inbound request carrying both credentials headers. -/
def inboundAuthEx : Header := fun k =>
  if k = "Authorization" then ["Bearer secret"]
  else if k = "Proxy-Authorization" then ["Basic abc"]
  else []

/-- Claim C1 (divergence witness): `stream` deletes the two credential
headers from the freshly built outbound request — which carries none — and
only then merges all inbound headers into it, so the inbound Authorization
and Proxy-Authorization values do land on the outbound request, contrary
to the claim and to the source's own comment above the deletions. -/
theorem authorization_forwarded :
    buildOutboundHeaders inboundAuthEx "Authorization" = ["Bearer secret"] ∧
    buildOutboundHeaders inboundAuthEx "Proxy-Authorization" = ["Basic abc"] := by
  decide

lemma replaceAllAux_nil (pat rep : List Char) (fuel : Nat) :
    replaceAllAux pat rep fuel [] = [] := by
  cases fuel <;> rfl

lemma replaceAllAux_no_early (pat rep : List Char) (hne : pat ≠ []) :
    ∀ (pre : List Char) (fuel : Nat),
      (pre ++ pat).length ≤ fuel →
      (∀ i, i < pre.length → pat.isPrefixOf ((pre ++ pat).drop i) = false) →
      replaceAllAux pat rep fuel (pre ++ pat) = pre ++ rep := by
  intro pre
  induction pre with
  | nil =>
    intro fuel hfuel _
    obtain ⟨c, cs, rfl⟩ : ∃ c cs, pat = c :: cs := by
      cases pat with
      | nil => exact absurd rfl hne
      | cons c cs => exact ⟨c, cs, rfl⟩
    cases fuel with
    | zero => simp at hfuel
    | succ f =>
      have hself : (c :: cs).isPrefixOf (c :: cs) = true :=
        List.isPrefixOf_iff_prefix.mpr (List.prefix_refl _)
      simp only [List.nil_append, replaceAllAux, hself, ne_eq, hne,
        not_false_iff, and_true, if_true, List.drop_length,
        replaceAllAux_nil, List.append_nil]
  | cons x pre ih =>
    intro fuel hfuel hno
    cases fuel with
    | zero => simp at hfuel
    | succ f =>
      have hx : pat.isPrefixOf ((x :: pre) ++ pat) = false := by
        simpa using hno 0 (by simp)
      have hgoal : replaceAllAux pat rep (f + 1) (x :: (pre ++ pat)) =
          x :: replaceAllAux pat rep f (pre ++ pat) := by
        simp only [replaceAllAux]
        rw [if_neg]
        intro hcond
        rw [List.cons_append] at hx
        rw [hx] at hcond
        simp at hcond
      rw [List.cons_append, hgoal, ih f ?hf ?hn, List.cons_append]
      case hf =>
        have : (pre ++ pat).length + 1 ≤ f + 1 := by
          simpa [Nat.succ_eq_add_one] using hfuel
        exact Nat.succ_le_succ_iff.mp this
      case hn =>
        intro i hi
        have := hno (i + 1) (by simpa using Nat.succ_lt_succ hi)
        simpa [List.cons_append, List.drop_succ_cons] using this

/-- Claim C6 (counterexample): for the track URI `http://ab/ab` the final
path segment is `ab`, which also occurs earlier in the URI;
`strings.ReplaceAll` rewrites both occurrences, so the host part changes
too and the result is not the URI with only its final segment replaced. -/
theorem m3u8Target_counterexample :
    m3u8Target "http://ab/ab".toList "x".toList = "http://x/x".toList ∧
    m3u8Target "http://ab/ab".toList "x".toList ≠ "http://ab/x".toList := by
  decide

/-- Claim C6 (amended): the resolved target URL is the track URI with
every left-to-right non-overlapping occurrence of its final path segment
replaced by the identifier; when the final segment occurs only once as a
substring — only as the final segment itself — the result is the URI with
exactly that final segment replaced and everything before it unchanged. -/
theorem m3u8Target_unique_base (uri id pre : List Char)
    (hsplit : uri = pre ++ pathBase uri)
    (hb : pathBase uri ≠ [])
    (hno : ∀ i, i < pre.length → (pathBase uri).isPrefixOf (uri.drop i) = false) :
    m3u8Target uri id = pre ++ id := by
  rw [m3u8Target, replaceAll]
  set b := pathBase uri with hbdef
  rw [hsplit]
  exact replaceAllAux_no_early b id hb pre (pre ++ b).length le_rfl
    (by intro i hi; rw [← hsplit]; exact hno i hi)

theorem m3u8Target_unique_base_witness :
    m3u8Target "http://host/live/stream.m3u8".toList "720p.m3u8".toList =
      "http://host/live/720p.m3u8".toList := by
  have h := m3u8Target_unique_base "http://host/live/stream.m3u8".toList
      "720p.m3u8".toList "http://host/live/".toList (by decide) (by decide)
      (by decide)
  exact h.trans (by decide)

lemma inFlight_append (a b : List AggEvent) :
    inFlight (a ++ b) = inFlight a + inFlight b := by
  simp [inFlight, List.map_append, List.sum_append]

lemma prefixNil {α : Type} {p : List α} (h : p <+: ([] : List α)) : p = [] := by
  obtain ⟨t, ht⟩ := h
  exact (List.append_eq_nil.mp ht).1

lemma prefixCons {α : Type} {p : List α} {a : α} {l : List α} (h : p <+: a :: l) :
    p = [] ∨ ∃ q, p = a :: q ∧ q <+: l := by
  cases p with
  | nil => exact Or.inl rfl
  | cons y ys =>
    obtain ⟨t, ht⟩ := h
    rw [List.cons_append] at ht
    injection ht with h1 h2
    subst h1
    exact Or.inr ⟨ys, rfl, ⟨t, h2⟩⟩

lemma prefixAppendCases {α : Type} {p a b : List α} (h : p <+: a ++ b) :
    p <+: a ∨ ∃ q, q <+: b ∧ p = a ++ q := by
  induction a generalizing p with
  | nil => exact Or.inr ⟨p, by simpa using h, by simp⟩
  | cons x xs ih =>
    cases p with
    | nil => exact Or.inl List.nil_prefix
    | cons y ys =>
      obtain ⟨t, ht⟩ := h
      rw [List.cons_append, List.cons_append] at ht
      injection ht with h1 h2
      subst h1
      rcases ih ⟨t, h2⟩ with hl | ⟨q, hq, rfl⟩
      · obtain ⟨t2, ht2⟩ := hl
        exact Or.inl ⟨t2, by rw [List.cons_append, ht2]⟩
      · exact Or.inr ⟨q, hq, by simp⟩

lemma concatEqConcat {α : Type} {p q : List α} {x y : α}
    (h : p ++ [x] = q ++ [y]) : p = q ∧ x = y := by
  obtain ⟨h1, h2⟩ := List.append_inj' h (by simp)
  injection h2 with h3 _
  exact ⟨h1, h3⟩

/-- Invariants of one loop iteration's event block: the in-flight count
stays within `[0, 1]` over every prefix, the block ends balanced, and any
accumulator mutation inside it happens with no fetch outstanding. -/
def BlockOK (B : List AggEvent) : Prop :=
  (∀ p, p <+: B → 0 ≤ inFlight p ∧ inFlight p ≤ 1) ∧
  inFlight B = 0 ∧
  (∀ p c, p ++ [AggEvent.merge c] <+: B → inFlight p = 0)

lemma catTrace_cases (be : Backend) (cat : Category) :
    catTrace be cat =
      [AggEvent.start (toString cat.id), AggEvent.finish (toString cat.id)] ∨
    catTrace be cat =
      [AggEvent.start (toString cat.id), AggEvent.finish (toString cat.id),
       AggEvent.merge (toString cat.id)] := by
  unfold catTrace
  cases be.getSeries (toString cat.id) with
  | error e => exact Or.inl rfl
  | ok s =>
    by_cases h : 0 < s.length
    · right; simp [h]
    · left; simp [h]

lemma blockOK_two (k : String) :
    BlockOK [AggEvent.start k, AggEvent.finish k] := by
  refine ⟨?_, by simp [inFlight, evtDelta], ?_⟩
  · intro p hp
    rcases prefixCons hp with rfl | ⟨q, rfl, hq⟩
    · simp [inFlight]
    · rcases prefixCons hq with rfl | ⟨q2, rfl, hq2⟩
      · simp [inFlight, evtDelta]
      · rw [prefixNil hq2]
        simp [inFlight, evtDelta]
  · intro p c hp
    obtain ⟨t, ht⟩ := hp
    have hmem : AggEvent.merge c ∈ [AggEvent.start k, AggEvent.finish k] := by
      rw [← ht]; simp
    simp at hmem

lemma blockOK_three (k : String) :
    BlockOK [AggEvent.start k, AggEvent.finish k, AggEvent.merge k] := by
  refine ⟨?_, by simp [inFlight, evtDelta], ?_⟩
  · intro p hp
    rcases prefixCons hp with rfl | ⟨q, rfl, hq⟩
    · simp [inFlight]
    · rcases prefixCons hq with rfl | ⟨q2, rfl, hq2⟩
      · simp [inFlight, evtDelta]
      · rcases prefixCons hq2 with rfl | ⟨q3, rfl, hq3⟩
        · simp [inFlight, evtDelta]
        · rw [prefixNil hq3]
          simp [inFlight, evtDelta]
  · intro p c hp
    obtain ⟨t, ht⟩ := hp
    rcases t.eq_nil_or_concat' with rfl | ⟨t2, y, rfl⟩
    · rw [List.append_nil] at ht
      have ht2 : p ++ [AggEvent.merge c] =
          [AggEvent.start k, AggEvent.finish k] ++ [AggEvent.merge k] := by
        simpa using ht
      rw [(concatEqConcat ht2).1]
      simp [inFlight, evtDelta]
    · have ht3 : (p ++ [AggEvent.merge c] ++ t2) ++ [y] =
          [AggEvent.start k, AggEvent.finish k] ++ [AggEvent.merge k] := by
        simpa [List.append_assoc] using ht
      have hmem : AggEvent.merge c ∈ [AggEvent.start k, AggEvent.finish k] := by
        rw [← (concatEqConcat ht3).1]
        simp
      simp at hmem

lemma blockOK_append {B T : List AggEvent} (hB : BlockOK B)
    (hT1 : ∀ p, p <+: T → 0 ≤ inFlight p ∧ inFlight p ≤ 1)
    (hT2 : inFlight T = 0)
    (hT3 : ∀ p c, p ++ [AggEvent.merge c] <+: T → inFlight p = 0) :
    (∀ p, p <+: B ++ T → 0 ≤ inFlight p ∧ inFlight p ≤ 1) ∧
    inFlight (B ++ T) = 0 ∧
    (∀ p c, p ++ [AggEvent.merge c] <+: B ++ T → inFlight p = 0) := by
  obtain ⟨hB1, hB2, hB3⟩ := hB
  refine ⟨?_, ?_, ?_⟩
  · intro p hp
    rcases prefixAppendCases hp with h | ⟨q, hq, rfl⟩
    · exact hB1 p h
    · rw [inFlight_append, hB2, zero_add]
      exact hT1 q hq
  · rw [inFlight_append, hB2, hT2, zero_add]
  · intro p c hp
    rcases prefixAppendCases hp with h | ⟨q, hq, hpq⟩
    · exact hB3 p c h
    · rcases q.eq_nil_or_concat' with rfl | ⟨q2, y, rfl⟩
      · rw [List.append_nil] at hpq
        exact hB3 p c (by rw [hpq])
      · have hpq2 : p ++ [AggEvent.merge c] = (B ++ q2) ++ [y] := by
          simpa [List.append_assoc] using hpq
        obtain ⟨h1, h2⟩ := concatEqConcat hpq2
        subst h2
        rw [h1, inFlight_append, hB2, zero_add]
        exact hT3 q2 c hq

lemma aggTrace_inv (be : Backend) : ∀ cats : List Category,
    (∀ p, p <+: aggTrace be cats → 0 ≤ inFlight p ∧ inFlight p ≤ 1) ∧
    inFlight (aggTrace be cats) = 0 ∧
    (∀ p c, p ++ [AggEvent.merge c] <+: aggTrace be cats → inFlight p = 0) := by
  intro cats
  induction cats with
  | nil =>
    refine ⟨?_, rfl, ?_⟩
    · intro p hp
      rw [prefixNil hp]
      simp [inFlight]
    · intro p c hp
      have := prefixNil hp
      simp at this
  | cons c cs ih =>
    obtain ⟨ih1, ih2, ih3⟩ := ih
    have hB : BlockOK (catTrace be c) := by
      rcases catTrace_cases be c with h | h
      · rw [h]; exact blockOK_two _
      · rw [h]; exact blockOK_three _
    simpa only [aggTrace] using blockOK_append hB ih1 ih2 ih3

/-- Claim C3: the fallback loop issues its per-category fetches with the
in-flight count bounded by one — the loop is sequential, each `GetSeries`
call returns before the next begins — hence never more than ten are in
flight; every started fetch has returned when the loop ends; and the
shared accumulator is only mutated while no fetch is outstanding, which
subsumes mutual exclusion of the merge steps. -/
theorem series_fetch_bounded (be : Backend) (cats : List Category) :
    (∀ p, p <+: aggTrace be cats → inFlight p ≤ 1 ∧ inFlight p ≤ 10) ∧
    inFlight (aggTrace be cats) = 0 ∧
    (∀ p c, p ++ [AggEvent.merge c] <+: aggTrace be cats → inFlight p = 0) := by
  obtain ⟨h1, h2, h3⟩ := aggTrace_inv be cats
  exact ⟨fun p hp => ⟨(h1 p hp).2, le_trans (h1 p hp).2 (by norm_num)⟩, h2, h3⟩

lemma aggregateFrom_spec (be : Backend) : ∀ (cats : List Category) (st : AggState),
    (aggregateFrom be st cats).allSeries =
      st.allSeries ++
        (cats.filterMap (fun c => (be.getSeries (toString c.id)).toOption)).flatten ∧
    (aggregateFrom be st cats).errorCount =
      st.errorCount +
        (cats.filter (fun c => ((be.getSeries (toString c.id)).toOption).isNone)).length ∧
    (aggregateFrom be st cats).calls =
      st.calls ++ cats.map (fun c => BackendCall.seriesPerCategory (toString c.id)) := by
  intro cats
  induction cats with
  | nil => intro st; simp [aggregateFrom]
  | cons c cs ih =>
    intro st
    obtain ⟨ih1, ih2, ih3⟩ := ih (aggStep be st c)
    simp only [aggregateFrom]
    cases hg : be.getSeries (toString c.id) with
    | error e =>
      refine ⟨?_, ?_, ?_⟩
      · rw [ih1]; simp [aggStep, hg, List.filterMap_cons, Except.toOption]
      · rw [ih2]; simp [aggStep, hg, List.filter_cons, Except.toOption]; omega
      · rw [ih3]; simp [aggStep, hg]
    | ok s =>
      by_cases hl : 0 < s.length
      · refine ⟨?_, ?_, ?_⟩
        · rw [ih1]; simp [aggStep, hg, hl, List.filterMap_cons, Except.toOption]
        · rw [ih2]; simp [aggStep, hg, hl, List.filter_cons, Except.toOption]
        · rw [ih3]; simp [aggStep, hg, hl]
      · have hs : s = [] := List.eq_nil_of_length_eq_zero (by omega)
        subst hs
        refine ⟨?_, ?_, ?_⟩
        · rw [ih1]; simp [aggStep, hg, List.filterMap_cons, Except.toOption]
        · rw [ih2]; simp [aggStep, hg, List.filter_cons, Except.toOption]
        · rw [ih3]; simp [aggStep, hg]

/-- Claim C2: on a series request without a category filter, once the raw
all-series attempt has failed and the category list arrived, the fallback
returns the concatenation of the series lists of exactly the successful
per-category fetches (in category order), counts each failing category in
`errorCount`, and the dispatch returns that union with code 0 and no
error — a failing category never aborts the request. -/
theorem series_aggregation (cfg : ProxyConfig) (be : Backend)
    (q : String → List String) (cats : List Category) (er : String)
    (hq : q "category_id" = [])
    (hraw : be.rawAllSeries = .error er)
    (hcats : be.seriesCategories = .ok cats) :
    (aggregateFrom be aggInit cats).allSeries =
      (cats.filterMap (fun c => (be.getSeries (toString c.id)).toOption)).flatten ∧
    (aggregateFrom be aggInit cats).errorCount =
      (cats.filter (fun c => ((be.getSeries (toString c.id)).toOption).isNone)).length ∧
    Action cfg be "get_series" q =
      ⟨some (.series (aggregateFrom be aggInit cats).allSeries), 0, none,
       [.rawAllSeries, .seriesCategories] ++ (aggregateFrom be aggInit cats).calls⟩ := by
  obtain ⟨h1, h2, h3⟩ := aggregateFrom_spec be cats aggInit
  refine ⟨by simpa [aggInit] using h1, by simpa [aggInit] using h2, ?_⟩
  simp [Action, firstParam, hq, hraw, hcats]

/-- Claim C4 (amended): with a non-empty category filter the dispatcher
issues one direct fetch for that category; when it succeeds that is the
only backend call, and when it fails exactly one additional raw all-series
fetch is issued (whose records are filtered by the category) — in neither
case is a per-category fan-out or a category-list fetch performed. -/
theorem series_filter_calls (cfg : ProxyConfig) (be : Backend)
    (q : String → List String) (cid : String)
    (hq : firstParam q "category_id" = cid) (hne : cid ≠ "") :
    ((Action cfg be "get_series" q).calls =
      match be.getSeries cid with
      | .ok _ => [BackendCall.seriesDirect cid]
      | .error _ => [BackendCall.seriesDirect cid, BackendCall.rawAllSeries]) ∧
    (∀ s, be.getSeries cid = .ok s →
      (Action cfg be "get_series" q).calls = [BackendCall.seriesDirect cid]) ∧
    (∀ c, BackendCall.seriesPerCategory c ∉ (Action cfg be "get_series" q).calls) ∧
    BackendCall.seriesCategories ∉ (Action cfg be "get_series" q).calls := by
  cases hg : be.getSeries cid with
  | ok s =>
    refine ⟨?_, ?_, ?_, ?_⟩ <;> simp [Action, hq, hne, hg]
  | error e =>
    cases hr : be.rawAllSeries with
    | ok raws =>
      refine ⟨?_, ?_, ?_, ?_⟩ <;> simp [Action, hq, hne, hg, hr]
    | error e2 =>
      refine ⟨?_, ?_, ?_, ?_⟩ <;> simp [Action, hq, hne, hg, hr]

/-- Claim C5: for an action outside the ten-element enumeration the
dispatcher issues no backend call and answers with the login synthesis:
proxy username, password, proxy-facing url (protocol plus hostname),
advertised port and protocol (https exactly when the HTTPS flag is set)
replace the backend's server values, while the backend-reported account
fields and the server timezone/time pass through unchanged. -/
theorem login_synthesis (cfg : ProxyConfig) (be : Backend) (action : String)
    (q : String → List String) (hact : action ∉ actionNames) :
    Action cfg be action q =
      ⟨some (.login
        { userInfo :=
            { username := cfg.user
              password := cfg.password
              message := be.userInfo.message
              auth := be.userInfo.auth
              status := be.userInfo.status
              expDate := be.userInfo.expDate
              isTrial := be.userInfo.isTrial
              activeConnections := be.userInfo.activeConnections
              createdAt := be.userInfo.createdAt
              maxConnections := be.userInfo.maxConnections
              allowedOutputFormats := be.userInfo.allowedOutputFormats }
          serverInfo :=
            { url := (if cfg.https then "https" else "http") ++ "://" ++ cfg.hostname
              port := cfg.advertisedPort
              httpsPort := cfg.advertisedPort
              protocol := if cfg.https then "https" else "http"
              rtmpPort := cfg.advertisedPort
              timezone := be.serverInfo.timezone
              timestampNow := be.serverInfo.timestampNow
              timeNow := be.serverInfo.timeNow } }),
       0, none, []⟩ := by
  have hs : ∀ s, s ∈ actionNames → ¬ action = s := fun s hs2 he => hact (he ▸ hs2)
  have e1 := hs "get_live_categories" (by decide)
  have e2 := hs "get_live_streams" (by decide)
  have e3 := hs "get_vod_categories" (by decide)
  have e4 := hs "get_vod_streams" (by decide)
  have e5 := hs "get_vod_info" (by decide)
  have e6 := hs "get_series_categories" (by decide)
  have e7 := hs "get_series" (by decide)
  have e8 := hs "get_series_info" (by decide)
  have e9 := hs "get_short_epg" (by decide)
  have e10 := hs "get_simple_data_table" (by decide)
  simp [Action, e1, e2, e3, e4, e5, e6, e7, e8, e9, e10, loginBuild,
    loginPayload, protocolOf]

/-- Claim C10: the default (unrecognized-action) path always succeeds: the
dispatch returns a nil error and a zero code for every configuration and
query set, because the login builder is total and never errs. -/
theorem default_action_total (cfg : ProxyConfig) (be : Backend) (action : String)
    (q : String → List String) (hact : action ∉ actionNames) :
    (Action cfg be action q).err = none ∧
    (Action cfg be action q).httpcode = 0 ∧
    ∀ c u p pu pp pr, (loginBuild c u p pu pp pr).2 = none := by
  have hs : ∀ s, s ∈ actionNames → ¬ action = s := fun s hs2 he => hact (he ▸ hs2)
  have e1 := hs "get_live_categories" (by decide)
  have e2 := hs "get_live_streams" (by decide)
  have e3 := hs "get_vod_categories" (by decide)
  have e4 := hs "get_vod_streams" (by decide)
  have e5 := hs "get_vod_info" (by decide)
  have e6 := hs "get_series_categories" (by decide)
  have e7 := hs "get_series" (by decide)
  have e8 := hs "get_series_info" (by decide)
  have e9 := hs "get_short_epg" (by decide)
  have e10 := hs "get_simple_data_table" (by decide)
  refine ⟨?_, ?_, fun c u p pu pp pr => rfl⟩ <;>
    simp [Action, e1, e2, e3, e4, e5, e6, e7, e8, e9, e10, loginBuild]

/-- Claim C8: a VOD-info request whose query lacks `vod_id` gets code 400
and an error message naming `vod_id`, and no backend call is made —
validation resolves before any backend operation. -/
theorem vod_info_missing_param (cfg : ProxyConfig) (be : Backend)
    (q : String → List String) (h : q "vod_id" = []) :
    Action cfg be "get_vod_info" q = ⟨none, 400, some "missing \"vod_id\"", []⟩ ∧
    substrB "vod_id".toList "missing \"vod_id\"".toList = true := by
  refine ⟨?_, by decide⟩
  simp [Action, validateParams, h, quoteParam]

/-- Claim C9: once the body-encoded authentication handler has parsed the
body and found both credential entries, it finishes — on a credential
match and on a mismatch alike — with the request body restored to exactly
the bytes it read. -/
theorem appAuthenticate_restores_body
    (parseQuery : String → Except String (String → List String))
    (cfgUser cfgPassword : String) (req : HttpRequest)
    (qv : String → List String)
    (hp : parseQuery req.body = .ok qv)
    (hu : qv "username" ≠ []) (hpw : qv "password" ≠ []) :
    (appAuthenticate parseQuery cfgUser cfgPassword req).1.body = req.body := by
  obtain ⟨u, us, hus⟩ : ∃ u us, qv "username" = u :: us := by
    cases h : qv "username" with
    | nil => exact absurd h hu
    | cons a l => exact ⟨a, l, rfl⟩
  obtain ⟨p, ps, hps⟩ : ∃ p ps, qv "password" = p :: ps := by
    cases h : qv "password" with
    | nil => exact absurd h hpw
    | cons a l => exact ⟨a, l, rfl⟩
  simp [appAuthenticate, hp, hus, hps]

def ui0 : UserInfo :=
  ⟨"backenduser", "backendpass", "msg", 1, "Active", "exp", "0", "0", "2020",
   "2", ["m3u8"]⟩

def si0 : ServerInfo := ⟨"backend.example", 80, 443, "http", 1935, "UTC", 5, "now"⟩

def be0 : Backend :=
  { userInfo := ui0, serverInfo := si0,
    liveCategories := .ok "lc", liveStreams := fun _ => .ok "ls",
    vodCategories := .ok "vc", vodStreams := fun _ => .ok "vs",
    vodInfo := fun _ => .ok "vi",
    seriesCategories := .ok [], getSeries := fun _ => .ok [],
    rawAllSeries := .ok [], seriesInfo := fun _ => .ok "si",
    shortEPG := fun _ _ => .ok "epg", epgTable := fun _ => .ok "tbl" }

def cfg0 : ProxyConfig := ⟨"u", "p", "proxy.example", 8080, false⟩

def q0 : String → List String := fun _ => []

def qCat5 : String → List String := fun k => if k = "category_id" then ["5"] else []

def beF : Backend :=
  { be0 with getSeries := fun _ => .error "down", rawAllSeries := .ok [] }

def seriesW : SeriesInfo := ⟨"s", "c", 1, none, "", "", "", "", "", 0⟩

def catsW : List Category := [⟨1, "a"⟩, ⟨2, "b"⟩, ⟨3, "c"⟩]

def beW : Backend :=
  { be0 with
    getSeries := fun c => if c = "2" then .error "e" else .ok [seriesW],
    rawAllSeries := .error "raw",
    seriesCategories := .ok catsW }

/-- Claim C4 (counterexample): a filtered series request whose direct
fetch fails issues a second backend call — the raw all-series fetch — so
"exactly one backend call regardless of success or failure" is false. -/
theorem series_filter_two_calls :
    (Action cfg0 beF "get_series" qCat5).calls =
      [BackendCall.seriesDirect "5", BackendCall.rawAllSeries] ∧
    ¬ (Action cfg0 beF "get_series" qCat5).calls.length = 1 := by
  decide

theorem series_filter_calls_witness :
    (Action cfg0 be0 "get_series" qCat5).calls = [BackendCall.seriesDirect "5"] :=
  (series_filter_calls cfg0 be0 qCat5 "5" (by decide) (by decide)).2.1 [] rfl

theorem series_aggregation_witness :
    (aggregateFrom beW aggInit catsW).allSeries = [seriesW, seriesW] ∧
    (aggregateFrom beW aggInit catsW).errorCount = 1 := by
  have h := series_aggregation cfg0 beW q0 catsW "raw" rfl rfl rfl
  exact ⟨h.1.trans (by decide), h.2.1.trans (by decide)⟩

theorem series_fetch_bounded_witness :
    inFlight [AggEvent.start "1"] ≤ 10 ∧ inFlight (aggTrace beW catsW) = 0 :=
  ⟨((series_fetch_bounded beW catsW).1 _ (by decide)).2,
   (series_fetch_bounded beW catsW).2.1⟩

theorem login_synthesis_witness :
    Action cfg0 be0 "get_account_info" q0 =
      ⟨some (.login
        ⟨⟨"u", "p", "msg", 1, "Active", "exp", "0", "0", "2020", "2", ["m3u8"]⟩,
         ⟨"http://proxy.example", 8080, 8080, "http", 8080, "UTC", 5, "now"⟩⟩),
       0, none, []⟩ := by
  have h := login_synthesis cfg0 be0 "get_account_info" q0 (by decide)
  exact h.trans (by decide)

theorem default_action_total_witness :
    (Action cfg0 be0 "get_account_info" q0).err = none ∧
    (Action cfg0 be0 "get_account_info" q0).httpcode = 0 :=
  ⟨(default_action_total cfg0 be0 "get_account_info" q0 (by decide)).1,
   (default_action_total cfg0 be0 "get_account_info" q0 (by decide)).2.1⟩

theorem vod_info_missing_param_witness :
    Action cfg0 be0 "get_vod_info" q0 = ⟨none, 400, some "missing \"vod_id\"", []⟩ :=
  (vod_info_missing_param cfg0 be0 q0 rfl).1

def parseW : String → Except String (String → List String) :=
  fun _ => .ok (fun k =>
    if k = "username" then ["u"] else if k = "password" then ["pw"] else [])

theorem appAuthenticate_restores_body_witness :
    (appAuthenticate parseW "u" "bad" ⟨"username=u&password=pw"⟩).1.body =
      "username=u&password=pw" :=
  appAuthenticate_restores_body parseW "u" "bad" ⟨"username=u&password=pw"⟩ _
    rfl (by decide) (by decide)

end IptvProxy
